import Mathlib

/-!
Verification of the weighted-component normalization, parameter clamping,
edit-intent classification and error propagation of the Lyria Studio backend
(`backend/prompt_analyzer.py`, `backend/lyria_generator.py`, `backend/api.py`).

Modelling conventions:
* Python strings are `List Char`; `str.strip()` / `str.lower()` are modelled
  character-wise (the keyword set and all inputs of interest are ASCII).
* Python floats are modelled as exact rationals `ℚ`; the spec's `± 1e-9`
  tolerance statements are settled by exact arithmetic.
* A Python exception is a pair of its class and message (`PyErr`).
* A value fed to `float(...)` is either numeric (coerces to a rational) or a
  value on which `float` raises; the raised exception is carried as data.
-/

namespace Lyria

attribute [local semireducible] Rat.add Rat.mul Rat.inv

/-- Python exception value: the exception class together with its message. -/
inductive PyErr where
  | valueError (msg : String)
  | typeError (msg : String)
deriving DecidableEq, Repr

/-- Whitespace test used by Python `str.strip()` (ASCII whitespace). -/
def isSpaceC (c : Char) : Bool :=
  c == ' ' || c == '\t' || c == '\n' || c == '\r' || c == '\x0b' || c == '\x0c'

/-- Model of Python `str.strip()`: drop leading then trailing whitespace. -/
def stripL (s : List Char) : List Char :=
  List.rdropWhile isSpaceC (List.dropWhile isSpaceC s)

/-- Model of Python `str.lower()` (code line 44), character-wise. -/
def toLowerL (s : List Char) : List Char :=
  s.map Char.toLower

/-- Boolean test that `n` is a leading segment of `h` (helper for `hasSub`). -/
def startsW : List Char → List Char → Bool
  | [], _ => true
  | _ :: _, [] => false
  | a :: as, b :: bs => a == b && startsW as bs

/-- Model of the Python substring operator `needle in haystack`. -/
def hasSub (n : List Char) : List Char → Bool
  | [] => n.isEmpty
  | c :: cs => startsW n (c :: cs) || hasSub n cs

/-- Edit keyword list, verbatim from `prompt_analyzer.py` line 43. -/
def edit_keywords : List (List Char) :=
  ["add".toList, "remove".toList, "more".toList, "less".toList,
   "increase".toList, "decrease".toList, "change".toList, "make it".toList,
   "make the".toList, "turn it".toList, "adjust".toList, "faster".toList,
   "slower".toList, "quieter".toList, "louder".toList]

/-- Edit-intent classification, `prompt_analyzer.py` lines 41-49: `is_edit`
stays `False` without previous context; otherwise it is
`any(keyword in prompt_lower for keyword in edit_keywords)`.
`hasPrev` models the truthiness of `previous_context`. -/
def is_edit (prompt : List Char) (hasPrev : Bool) : Bool :=
  hasPrev && edit_keywords.any (fun k => hasSub k (toLowerL prompt))

/-- A raw value appearing in the `weight` field (or a parameter field):
either a numeric value (what Python `float(...)` coerces to a float,
modelled exactly as a rational), or a value on which `float(...)` raises
the carried exception (e.g. `None`, a non-numeric string, a list). -/
inductive WVal where
  | num (q : ℚ)
  | bad (e : PyErr)
deriving DecidableEq, Repr

/-- Model of Python `float(...)` on a `weight` value. -/
def pyFloat : WVal → Except PyErr ℚ
  | .num q => .ok q
  | .bad e => .error e

/-- A raw candidate component as handed back by the model, `prompt_analyzer.py`
line 400-401: possibly not a dict, possibly missing the `text` or `weight`
key. The `text` value is modelled as a string (`str(...)` is the identity on
strings; no claim exercises non-string `text` values). -/
structure RawComp where
  isDict : Bool
  text : Option (List Char)
  weight : Option WVal
deriving DecidableEq, Repr

/-- One iteration of the validation loop, `prompt_analyzer.py` lines 400-407:
keep the candidate only if it is a dict with both `text` and `weight` keys
and its stripped text is at most 50 characters; `float(comp.get("weight", 0))`
may raise, aborting the whole analysis. -/
def keepComp (c : RawComp) : Except PyErr (Option (List Char × ℚ)) :=
  match c.isDict, c.text, c.weight with
  | true, some t, some w =>
    if 50 < (stripL t).length then .ok none
    else
      match pyFloat w with
      | .ok q => .ok (some (stripL t, q))
      | .error e => .error e
  | _, _, _ => .ok none

/-- The whole validation loop over the candidate list (`valid_components`),
in input order; an exception in one iteration aborts the loop. -/
def filterComps : List RawComp → Except PyErr (List (List Char × ℚ))
  | [] => .ok []
  | c :: cs =>
    match keepComp c with
    | .error e => .error e
    | .ok none => filterComps cs
    | .ok (some p) =>
      match filterComps cs with
      | .error e => .error e
      | .ok rest => .ok (p :: rest)

/-- Normalization step of `analyze_prompt_for_weighted_components`,
`prompt_analyzer.py` lines 392-426: empty candidate list raises
(line 396); after filtering, an empty survivor list raises (line 411);
otherwise weights are divided by their sum when it is strictly positive
(lines 415-419) and set uniformly to `1/len` otherwise (lines 421-426). -/
def normalize_components : List RawComp → Except PyErr (List (List Char × ℚ))
  | [] => .error (.valueError "No components returned from AI")
  | c :: cs =>
    match filterComps (c :: cs) with
    | .error e => .error e
    | .ok [] => .error (.valueError "No valid components after validation")
    | .ok (v :: vs) =>
      let total := ((v :: vs).map Prod.snd).sum
      if 0 < total then
        .ok ((v :: vs).map (fun p => (p.1, p.2 / total)))
      else
        .ok ((v :: vs).map (fun p => (p.1, 1 / ((v :: vs).length : ℚ))))

/-- The generic handler `except Exception as e` at `prompt_analyzer.py`
lines 458-466 re-raises every exception from the body as
`ValueError(f"AI analysis failed: {type(e).__name__}: {e}")`. -/
def wrapErr : PyErr → PyErr
  | .valueError m => .valueError ("AI analysis failed: ValueError: " ++ m)
  | .typeError m => .valueError ("AI analysis failed: TypeError: " ++ m)

/-- Component normalization as observed by the caller of
`analyze_prompt_for_weighted_components`: the body's exceptions arrive
wrapped by the generic handler. -/
def analyze_components (comps : List RawComp) : Except PyErr (List (List Char × ℚ)) :=
  (normalize_components comps).mapError wrapErr

/-- Raw parameter mapping (`result.get("parameters", {})`), each field
optional; present fields are modelled as numeric (non-numeric parameter
values abort the analysis through `int`/`float` and are not exercised by
the claims). -/
structure RawParams where
  bpm : Option ℚ
  guidance : Option ℚ
  density : Option ℚ
deriving DecidableEq, Repr

/-- Python `int(x)` on a numeric value truncates toward zero. -/
def intTrunc (q : ℚ) : ℤ :=
  if 0 ≤ q then ⌊q⌋ else -⌊-q⌋

/-- Parameter extraction and clamping, `prompt_analyzer.py` lines 429-437:
`int(params.get("bpm", 90))`, `float(params.get("guidance", 7.0))`,
`float(params.get("density", 0.5))`, then
`max(60, min(180, bpm))`, `max(1.0, min(10.0, guidance))`,
`max(0.0, min(1.0, density))`. -/
def extract_parameters (p : RawParams) : ℤ × ℚ × ℚ :=
  let bpm := intTrunc (p.bpm.getD 90)
  let guidance := p.guidance.getD 7
  let density := p.density.getD (1 / 2)
  (max 60 (min 180 bpm), max 1 (min 10 guidance), max 0 (min 1 density))

/-- Default fill-in step of the spec's parameter pipeline (defaults
bpm 90, guidance 7.0, density 0.5). -/
def fillDefaults (p : RawParams) : ℚ × ℚ × ℚ :=
  (p.bpm.getD 90, p.guidance.getD 7, p.density.getD (1 / 2))

/-- Clamp step applied after default fill-in, with the integer conversion
Python's `int(...)` actually performs (truncation toward zero). -/
def clampParams : ℚ × ℚ × ℚ → ℤ × ℚ × ℚ
  | (b, g, d) => (max 60 (min 180 (intTrunc b)), max 1 (min 10 g), max 0 (min 1 d))

/-- Rounding to the nearest integer (halves up). -/
def qRound (q : ℚ) : ℤ :=
  ⌊q + 1 / 2⌋

/-- Modelled from the spec: the parameter pipeline as the claim states it,
with the tempo ROUNDED (`clamp(round(tempo), 60, 180)`) rather than
truncated, before clamping; guidance and density as in the code. -/
def spec_parameters (p : RawParams) : ℤ × ℚ × ℚ :=
  (max 60 (min 180 (qRound (p.bpm.getD 90))),
   max 1 (min 10 (p.guidance.getD 7)),
   max 0 (min 1 (p.density.getD (1 / 2))))

/-- Error propagation of `lyria_generator.generate_music_file`, lines 34-106:
the whole body sits in a `try`; `except Exception` prints the error and
`return None`. The argument is the outcome of the try body: either the
saved file path or the exception the body raised. -/
def generate_music_file (outcome : Except PyErr String) : Option String :=
  match outcome with
  | .ok path => some path
  | .error _ => none

/-- Simplified HTTP failure value raised by the API layer. -/
structure HTTPException where
  status_code : ℕ
  detail : String
deriving DecidableEq, Repr

/-- Error handling of `api.generate_audio`, `api.py` lines 104-118: a `None`
result from the generator is turned into `HTTPException(500, "Error en
Lyria Generator")` (the surrounding generic handler re-raises it with the
same 500 status); a path is returned as the file response. -/
def generate_audio_result (outcome : Except PyErr String) : Except HTTPException String :=
  match generate_music_file outcome with
  | some p => .ok p
  | none => .error ⟨500, "Error en Lyria Generator"⟩

/-- Reinjection of an already-normalized component back into the raw shape
(a dict with `text` and `weight` keys), used to state idempotence. -/
def toRaw (p : List Char × ℚ) : RawComp :=
  ⟨true, some p.1, some (.num p.2)⟩

/-! ### Helper lemmas -/

theorem mapError_ok_iff {ε εB α : Type} (f : ε → εB) (x : Except ε α) (a : α) :
    x.mapError f = .ok a ↔ x = .ok a := by
  cases x <;> simp [Except.mapError]

theorem dropWhile_of_rdropWhile_of_clean {α : Type} (p : α → Bool) (l : List α)
    (h : l.dropWhile p = l) : (l.rdropWhile p).dropWhile p = l.rdropWhile p := by
  rcases hr : l.rdropWhile p with _ | ⟨a, t⟩
  · simp
  · obtain ⟨u, hu⟩ := List.rdropWhile_prefix p l
    rw [hr] at hu
    subst hu
    rw [List.dropWhile_eq_self_iff] at h ⊢
    intro hl
    have h0 : 0 < ((a :: t) ++ u).length := by simp
    have h1 := h h0
    simpa using h1

theorem strip_idem (s : List Char) : stripL (stripL s) = stripL s := by
  unfold stripL
  rw [dropWhile_of_rdropWhile_of_clean isSpaceC (List.dropWhile isSpaceC s)
      (List.dropWhile_idempotent isSpaceC s),
    List.rdropWhile_idempotent]

theorem keepComp_ok_some {c : RawComp} {pr : List Char × ℚ}
    (h : keepComp c = .ok (some pr)) :
    ∃ t q, c.text = some t ∧ c.weight = some (.num q) ∧
      ¬ 50 < (stripL t).length ∧ pr = (stripL t, q) := by
  obtain ⟨d, tOpt, wOpt⟩ := c
  cases d
  case false => simp [keepComp] at h
  case true =>
    cases tOpt
    case none => simp [keepComp] at h
    case some t =>
      cases wOpt
      case none => simp [keepComp] at h
      case some w =>
        cases w
        case num q =>
          simp only [keepComp, pyFloat] at h
          split at h
          · simp at h
          · rename_i hlen
            simp only [Except.ok.injEq, Option.some.injEq] at h
            exact ⟨t, q, rfl, rfl, hlen, h.symm⟩
        case bad e =>
          simp only [keepComp, pyFloat] at h
          split at h
          · simp at h
          · simp at h

theorem keepComp_eq_of_num (t : List Char) (q : ℚ) (hlen : ¬ 50 < (stripL t).length) :
    keepComp ⟨true, some t, some (.num q)⟩ = .ok (some (stripL t, q)) := by
  simp [keepComp, pyFloat, hlen]

theorem keepComp_no_weight (d : Bool) (tOpt : Option (List Char)) :
    keepComp ⟨d, tOpt, none⟩ = .ok none := by
  cases d <;> cases tOpt <;> simp [keepComp]

theorem keepComp_long (t : List Char) (w : WVal) (hlen : 50 < (stripL t).length) :
    keepComp ⟨true, some t, some w⟩ = .ok none := by
  simp [keepComp, hlen]

theorem keepComp_bad (t : List Char) (e : PyErr) (hlen : ¬ 50 < (stripL t).length) :
    keepComp ⟨true, some t, some (.bad e)⟩ = .error e := by
  simp [keepComp, pyFloat, hlen]

theorem filterComps_mem (comps : List RawComp) :
    ∀ valid, filterComps comps = .ok valid → ∀ p ∈ valid,
      (∃ c ∈ comps, ∃ t q, c.text = some t ∧ c.weight = some (.num q) ∧
        p = (stripL t, q)) ∧ ¬ 50 < p.1.length := by
  induction comps with
  | nil =>
    intro valid h p hp
    simp only [filterComps, Except.ok.injEq] at h
    subst h
    simp at hp
  | cons c cs ih =>
    intro valid h p hp
    simp only [filterComps] at h
    cases hk : keepComp c <;> rw [hk] at h
    case error e => simp at h
    case ok o =>
      cases o with
      | none =>
        obtain ⟨⟨c2, hc2, rest⟩, hlen⟩ := ih valid h p hp
        exact ⟨⟨c2, List.mem_cons_of_mem _ hc2, rest⟩, hlen⟩
      | some pr =>
        cases hr : filterComps cs <;> rw [hr] at h
        case error e => simp at h
        case ok rest =>
          simp only [Except.ok.injEq] at h
          subst h
          rcases List.mem_cons.mp hp with hpe | hpm
          · subst hpe
            obtain ⟨t, q, ht, hw, hlen, hpr⟩ := keepComp_ok_some hk
            refine ⟨⟨c, List.mem_cons_self c cs, t, q, ht, hw, hpr⟩, ?_⟩
            rw [hpr]
            exact hlen
          · obtain ⟨⟨c2, hc2, rest2⟩, hlen⟩ := ih rest hr p hpm
            exact ⟨⟨c2, List.mem_cons_of_mem _ hc2, rest2⟩, hlen⟩

theorem filterComps_all_none (comps : List RawComp)
    (h : ∀ c ∈ comps, keepComp c = .ok none) : filterComps comps = .ok [] := by
  induction comps with
  | nil => rfl
  | cons c cs ih =>
    have hc := h c (List.mem_cons_self c cs)
    simp only [filterComps, hc]
    exact ih fun x hx => h x (List.mem_cons_of_mem _ hx)

theorem filterComps_map_toRaw (l : List (List Char × ℚ))
    (h : ∀ p ∈ l, stripL p.1 = p.1 ∧ ¬ 50 < p.1.length) :
    filterComps (l.map toRaw) = .ok l := by
  induction l with
  | nil => rfl
  | cons p ps ih =>
    obtain ⟨hs, hlen⟩ := h p (List.mem_cons_self p ps)
    have hk : keepComp (toRaw p) = .ok (some p) := by
      have hn := keepComp_eq_of_num p.1 p.2 (by rw [hs]; exact hlen)
      rw [hs] at hn
      simpa [toRaw] using hn
    have hrest := ih fun x hx => h x (List.mem_cons_of_mem _ hx)
    simp only [List.map_cons, filterComps, hk, hrest]

theorem sum_snd_map_div (l : List (List Char × ℚ)) (c : ℚ) :
    ((l.map fun p => (p.1, p.2 / c)).map Prod.snd).sum = ((l.map Prod.snd).sum) / c := by
  induction l with
  | nil => simp
  | cons a l ih =>
    simp only [List.map_cons, List.sum_cons, ih, add_div]

theorem sum_snd_map_const (l : List (List Char × ℚ)) (w : ℚ) :
    ((l.map fun p => (p.1, w)).map Prod.snd).sum = l.length * w := by
  induction l with
  | nil => simp
  | cons a l ih =>
    simp only [List.map_cons, List.sum_cons, ih, List.length_cons]
    push_cast
    ring

theorem normalize_ok_elim (comps : List RawComp) (out : List (List Char × ℚ))
    (h : normalize_components comps = .ok out) :
    ∃ valid, valid ≠ [] ∧ filterComps comps = .ok valid ∧
      ((0 < (valid.map Prod.snd).sum ∧
          out = valid.map fun p => (p.1, p.2 / (valid.map Prod.snd).sum)) ∨
        (¬ 0 < (valid.map Prod.snd).sum ∧
          out = valid.map fun p => (p.1, 1 / (valid.length : ℚ)))) := by
  cases comps with
  | nil => simp [normalize_components] at h
  | cons c cs =>
    simp only [normalize_components] at h
    cases hf : filterComps (c :: cs) <;> rw [hf] at h
    case error e => simp at h
    case ok valid =>
      cases valid with
      | nil => simp at h
      | cons v vs =>
        dsimp only at h
        refine ⟨v :: vs, by simp, rfl, ?_⟩
        by_cases hS : 0 < ((v :: vs).map Prod.snd).sum
        · rw [if_pos hS] at h
          exact Or.inl ⟨hS, by simpa using h.symm⟩
        · rw [if_neg hS] at h
          exact Or.inr ⟨hS, by simpa using h.symm⟩

theorem normalize_sum_one (comps : List RawComp) (out : List (List Char × ℚ))
    (h : normalize_components comps = .ok out) : (out.map Prod.snd).sum = 1 := by
  obtain ⟨valid, hne, hf, hcase | hcase⟩ := normalize_ok_elim comps out h
  · obtain ⟨hS, hout⟩ := hcase
    rw [hout, sum_snd_map_div, div_self (ne_of_gt hS)]
  · obtain ⟨hS, hout⟩ := hcase
    have hlen : valid.length ≠ 0 := fun hz => hne (List.length_eq_zero.mp hz)
    have hq : (valid.length : ℚ) ≠ 0 := Nat.cast_ne_zero.mpr hlen
    rw [hout, sum_snd_map_const, mul_one_div, div_self hq]

theorem normalize_out_facts (comps : List RawComp) (out : List (List Char × ℚ))
    (h : normalize_components comps = .ok out) :
    ∀ p ∈ out, (∃ c ∈ comps, ∃ t q, c.text = some t ∧ c.weight = some (.num q) ∧
      p.1 = stripL t) ∧ stripL p.1 = p.1 ∧ ¬ 50 < p.1.length := by
  obtain ⟨valid, hvne, hf, hcase⟩ := normalize_ok_elim comps out h
  have hmem := filterComps_mem comps valid hf
  have key : ∀ pr ∈ valid, ∀ p : List Char × ℚ, p.1 = pr.1 →
      (∃ c ∈ comps, ∃ t q, c.text = some t ∧ c.weight = some (.num q) ∧
        p.1 = stripL t) ∧ stripL p.1 = p.1 ∧ ¬ 50 < p.1.length := by
    intro pr hpr p hp1
    obtain ⟨⟨c, hc, t, q, ht, hw, hpe⟩, hlen⟩ := hmem pr hpr
    have h1 : pr.1 = stripL t := by rw [hpe]
    refine ⟨⟨c, hc, t, q, ht, hw, by rw [hp1, h1]⟩, ?_, ?_⟩
    · rw [hp1, h1, strip_idem]
    · rw [hp1]
      exact hlen
  intro p hp
  rcases hcase with ⟨_, hout⟩ | ⟨_, hout⟩
  · subst hout
    rw [List.mem_map] at hp
    obtain ⟨pr, hpr, hpe⟩ := hp
    exact key pr hpr p (by rw [← hpe])
  · subst hout
    rw [List.mem_map] at hp
    obtain ⟨pr, hpr, hpe⟩ := hp
    exact key pr hpr p (by rw [← hpe])

/-! ### Concrete example inputs -/

/-- The spec's rescale example: `[{"pop",2},{"piano",1},{"drums",1}]`. -/
def exRescale : List RawComp :=
  [⟨true, some "pop".toList, some (.num 2)⟩,
   ⟨true, some "piano".toList, some (.num 1)⟩,
   ⟨true, some "drums".toList, some (.num 1)⟩]

/-- Candidate list holding a negative weight whose sum stays positive. -/
def exNeg : List RawComp :=
  [⟨true, some "a".toList, some (.num 3)⟩,
   ⟨true, some "b".toList, some (.num (-1))⟩]

/-- Candidate list whose weights sum to a negative number. -/
def exNegSum : List RawComp :=
  [⟨true, some "a".toList, some (.num (-1))⟩,
   ⟨true, some "b".toList, some (.num (-2))⟩]

/-- One candidate missing its `weight` field, next to a well-formed one. -/
def exMissing : List RawComp :=
  [⟨true, some "a".toList, none⟩,
   ⟨true, some "b".toList, some (.num 1)⟩]

/-- One candidate whose `weight` value makes `float(...)` raise. -/
def exBadWeight : List RawComp :=
  [⟨true, some "a".toList,
    some (.bad (.typeError "float argument must be a string or a real number, not NoneType"))⟩]

/-- The spec's empty-after-filter test: a single 60-character candidate. -/
def exLong : List RawComp :=
  [⟨true, some (List.replicate 60 'x'), some (.num 1)⟩]

/-- A 60-character candidate with a large weight next to a short one. -/
def exLongMix : List RawComp :=
  [⟨true, some (List.replicate 60 'x'), some (.num 5)⟩,
   ⟨true, some "a".toList, some (.num 1)⟩]

/-! ### Claim theorems -/

/-- C1: for every candidate list on which normalization succeeds (at least one
component survives filtering), the output weights sum to 1.0 within 1e-9 —
in this exact-rational model the sum is exactly 1 in both the rescale and the
uniform-fallback branch. -/
theorem normalized_weights_sum_to_one (comps : List RawComp)
    (out : List (List Char × ℚ)) (h : analyze_components comps = .ok out) :
    |(out.map Prod.snd).sum - 1| ≤ (1 : ℚ) / 1000000000 := by
  rw [analyze_components, mapError_ok_iff] at h
  rw [normalize_sum_one comps out h]
  norm_num

/-- C1 witness: the spec's rescale example sums to one. -/
theorem normalized_weights_sum_to_one_witness :
    |(([("pop".toList, (1 : ℚ) / 2), ("piano".toList, 1 / 4),
        ("drums".toList, 1 / 4)].map Prod.snd).sum - 1 : ℚ)| ≤ (1 : ℚ) / 1000000000 :=
  normalized_weights_sum_to_one exRescale _ rfl

/-- C2 counterexample: candidates `[{"a",3},{"b",-1}]` survive filtering with
positive sum 2, and the returned list carries the negative weight -1/2, so a
successfully returned list does NOT always have non-negative weights. -/
theorem negative_weight_in_output :
    analyze_components exNeg = .ok [("a".toList, 3 / 2), ("b".toList, -(1 / 2))] ∧
    (-(1 / 2) : ℚ) < 0 := ⟨rfl, by norm_num⟩

/-- C2 amended: if every candidate weight value is non-negative, then every
component in a successfully returned normalized list has a non-negative
weight. -/
theorem nonneg_inputs_give_nonneg_weights (comps : List RawComp)
    (out : List (List Char × ℚ))
    (hw : ∀ c ∈ comps, ∀ q, c.weight = some (WVal.num q) → 0 ≤ q)
    (h : analyze_components comps = .ok out) :
    ∀ p ∈ out, 0 ≤ p.2 := by
  rw [analyze_components, mapError_ok_iff] at h
  obtain ⟨valid, hvne, hf, hcase⟩ := normalize_ok_elim comps out h
  have hmem := filterComps_mem comps valid hf
  have hvalid : ∀ pr ∈ valid, 0 ≤ pr.2 := by
    intro pr hpr
    obtain ⟨⟨c, hc, t, q, ht, hwq, hpe⟩, _⟩ := hmem pr hpr
    rw [hpe]
    exact hw c hc q hwq
  intro p hp
  rcases hcase with ⟨hS, hout⟩ | ⟨hS, hout⟩
  · subst hout
    rw [List.mem_map] at hp
    obtain ⟨pr, hpr, hpe⟩ := hp
    rw [← hpe]
    exact div_nonneg (hvalid pr hpr) (le_of_lt hS)
  · subst hout
    rw [List.mem_map] at hp
    obtain ⟨pr, hpr, hpe⟩ := hp
    rw [← hpe]
    exact div_nonneg zero_le_one (Nat.cast_nonneg _)

/-- C2 witness: the rescale example has non-negative inputs, and each of its
three output components has a non-negative weight. -/
theorem nonneg_inputs_give_nonneg_weights_witness :
    0 ≤ (("pop".toList, (1 : ℚ) / 2) : List Char × ℚ).2 ∧
    0 ≤ (("piano".toList, (1 : ℚ) / 4) : List Char × ℚ).2 ∧
    0 ≤ (("drums".toList, (1 : ℚ) / 4) : List Char × ℚ).2 :=
  ⟨nonneg_inputs_give_nonneg_weights exRescale
      [("pop".toList, (1 : ℚ) / 2), ("piano".toList, (1 : ℚ) / 4),
        ("drums".toList, (1 : ℚ) / 4)]
      (by intro c hc q hq; fin_cases hc <;> simp at hq <;> subst hq <;> norm_num)
      rfl _ (List.mem_cons_self _ _),
   nonneg_inputs_give_nonneg_weights exRescale
      [("pop".toList, (1 : ℚ) / 2), ("piano".toList, (1 : ℚ) / 4),
        ("drums".toList, (1 : ℚ) / 4)]
      (by intro c hc q hq; fin_cases hc <;> simp at hq <;> subst hq <;> norm_num)
      rfl _ (List.mem_cons_of_mem _ (List.mem_cons_self _ _)),
   nonneg_inputs_give_nonneg_weights exRescale
      [("pop".toList, (1 : ℚ) / 2), ("piano".toList, (1 : ℚ) / 4),
        ("drums".toList, (1 : ℚ) / 4)]
      (by intro c hc q hq; fin_cases hc <;> simp at hq <;> subst hq <;> norm_num)
      rfl _ (List.mem_cons_of_mem _ (List.mem_cons_of_mem _ (List.mem_cons_self _ _)))⟩

/-- C3 counterexample: on `{bpm: 120.9}` the code truncates (`int(...)`) to
120 while the claim's `clamp(round(bpm))` pipeline gives 121, so the claim's
"rounded, not truncated" is false of the code. -/
theorem tempo_truncated_not_rounded :
    extract_parameters ⟨some (1209 / 10), none, none⟩ = (120, 7, 1 / 2) ∧
    spec_parameters ⟨some (1209 / 10), none, none⟩ = (121, 7, 1 / 2) ∧
    extract_parameters ⟨some (1209 / 10), none, none⟩ ≠
      spec_parameters ⟨some (1209 / 10), none, none⟩ := by
  refine ⟨by decide, by decide, by decide⟩

/-- C3 amended: the final parameters are the defaults-filled raw parameters
(bpm 90, guidance 7.0, density 0.5) clamped to their ranges, with the bpm
TRUNCATED toward zero (Python `int(...)`) rather than rounded before
clamping; the results always lie in range and `{}` maps to the defaults. -/
theorem parameters_fill_then_clamp (p : RawParams) :
    extract_parameters p = clampParams (fillDefaults p) ∧
    60 ≤ (extract_parameters p).1 ∧ (extract_parameters p).1 ≤ 180 ∧
    1 ≤ (extract_parameters p).2.1 ∧ (extract_parameters p).2.1 ≤ 10 ∧
    0 ≤ (extract_parameters p).2.2 ∧ (extract_parameters p).2.2 ≤ 1 ∧
    extract_parameters ⟨none, none, none⟩ = (90, 7, 1 / 2) := by
  refine ⟨rfl, ?_, ?_, ?_, ?_, ?_, ?_, by decide⟩
  · exact le_max_left _ _
  · exact max_le (by norm_num) (min_le_left _ _)
  · exact le_max_left _ _
  · exact max_le (by norm_num) (min_le_left _ _)
  · exact le_max_left _ _
  · exact max_le (by norm_num) (min_le_left _ _)

/-- C4: the edit-intent classification is false without previous context, and
with previous context it is true exactly when some keyword of the fixed set
occurs as a substring of the lower-cased instruction; the spec's three
concrete classifications hold. -/
theorem edit_classifier_keyword_iff (prompt : List Char) :
    is_edit prompt false = false ∧
    (is_edit prompt true = true ↔
      ∃ k ∈ edit_keywords, hasSub k (toLowerL prompt) = true) ∧
    is_edit "add more piano".toList true = true ∧
    is_edit "a totally new jazz track".toList true = false ∧
    is_edit "add more piano".toList false = false := by
  refine ⟨rfl, ?_, by decide, by decide, rfl⟩
  simp [is_edit, List.any_eq_true]

/-- C5: the empty candidate list and the everything-rejected candidate list
fail with two distinct error values (both `ValueError`s, distinguishable by
their message), as surfaced to the caller through the generic wrapper. -/
theorem normalize_error_kinds :
    analyze_components [] =
      .error (.valueError
        "AI analysis failed: ValueError: No components returned from AI") ∧
    (∀ comps : List RawComp, comps ≠ [] → (∀ c ∈ comps, keepComp c = .ok none) →
      analyze_components comps =
        .error (.valueError
          "AI analysis failed: ValueError: No valid components after validation")) ∧
    (PyErr.valueError "AI analysis failed: ValueError: No components returned from AI" ≠
      PyErr.valueError
        "AI analysis failed: ValueError: No valid components after validation") := by
  refine ⟨rfl, ?_, by decide⟩
  intro comps hne hall
  cases comps with
  | nil => exact absurd rfl hne
  | cons c cs =>
    have hf : filterComps (c :: cs) = .ok [] := filterComps_all_none _ hall
    simp [analyze_components, normalize_components, hf, wrapErr, Except.mapError]

/-- C5 witness: the spec's empty-after-filter test, a single 60-character
candidate, fails with the everything-rejected error. -/
theorem normalize_error_kinds_witness :
    analyze_components exLong =
      .error (.valueError
        "AI analysis failed: ValueError: No valid components after validation") :=
  normalize_error_kinds.2.1 exLong (by decide)
    (by
      intro c hc
      simp only [exLong, List.mem_singleton] at hc
      subst hc
      exact keepComp_long _ _ (by decide))

/-- C6 counterexample: the candidate `{"text": "a"}` with NO `weight` key is
rejected by the shape guard, not kept with weight 0 (the output under the
claim would be `[("a",0),("b",1)]`); and a present weight on which
`float(...)` raises makes the whole normalization fail instead of
defaulting to 0. -/
theorem missing_weight_rejected_not_defaulted :
    analyze_components exMissing = .ok [("b".toList, 1)] ∧
    analyze_components exMissing ≠ .ok [("a".toList, 0), ("b".toList, 1)] ∧
    analyze_components exBadWeight =
      .error (.valueError
        "AI analysis failed: TypeError: float argument must be a string or a real number, not NoneType") := by
  refine ⟨rfl, ?_, rfl⟩
  intro h
  exact absurd
    (Except.ok.inj
      ((rfl : analyze_components exMissing = .ok [("b".toList, 1)]).symm.trans h))
    (by decide)

/-- C6 amended: a candidate whose `weight` field is missing is rejected by
the shape guard (the list filters as if it were absent); a present weight on
which `float(...)` raises aborts the whole filtering with that error; a
present numeric weight is coerced and the candidate kept. -/
theorem weight_field_handling (c : RawComp) (cs : List RawComp) :
    (c.weight = none → filterComps (c :: cs) = filterComps cs) ∧
    (∀ t e, c.isDict = true → c.text = some t → c.weight = some (.bad e) →
      ¬ 50 < (stripL t).length → filterComps (c :: cs) = .error e) ∧
    (∀ t q, c.isDict = true → c.text = some t → c.weight = some (.num q) →
      ¬ 50 < (stripL t).length →
      filterComps (c :: cs) = (filterComps cs).map (fun r => (stripL t, q) :: r)) := by
  obtain ⟨d, tOpt, wOpt⟩ := c
  refine ⟨?_, ?_, ?_⟩
  · intro hw
    subst hw
    simp only [filterComps, keepComp_no_weight]
  · intro t e hd ht hw hlen
    subst hd
    subst ht
    subst hw
    simp only [filterComps, keepComp_bad t e hlen]
  · intro t q hd ht hw hlen
    subst hd
    subst ht
    subst hw
    cases hr : filterComps cs <;>
      simp [filterComps, keepComp_eq_of_num t q hlen, hr, Except.map]

/-- C6 witness: the three weight-field behaviors at concrete inputs. -/
theorem weight_field_handling_witness :
    filterComps [(⟨true, some "a".toList, none⟩ : RawComp)] = filterComps [] ∧
    filterComps [(⟨true, some "a".toList, some (.bad (.typeError "t"))⟩ : RawComp)] =
      .error (.typeError "t") ∧
    filterComps [(⟨true, some "a".toList, some (.num 2)⟩ : RawComp)] =
      (filterComps []).map (fun r => (stripL "a".toList, (2 : ℚ)) :: r) :=
  ⟨(weight_field_handling _ []).1 rfl,
   (weight_field_handling _ []).2.1 "a".toList _ rfl rfl rfl (by decide),
   (weight_field_handling _ []).2.2 "a".toList 2 rfl rfl rfl (by decide)⟩

/-- C7: in every successful normalization, all output texts are at most 50
characters, every output text is exactly the stripped text of some input
candidate (never rewritten or truncated), and a candidate whose stripped
text exceeds 50 characters never contributes its text to the output,
regardless of its weight. -/
theorem long_components_dropped (comps : List RawComp)
    (out : List (List Char × ℚ)) (h : analyze_components comps = .ok out) :
    (∀ p ∈ out, p.1.length ≤ 50) ∧
    (∀ p ∈ out, ∃ c ∈ comps, ∃ t q, c.text = some t ∧ c.weight = some (.num q) ∧
      p.1 = stripL t) ∧
    (∀ c ∈ comps, ∀ t, c.text = some t → 50 < (stripL t).length →
      stripL t ∉ out.map Prod.fst) := by
  rw [analyze_components, mapError_ok_iff] at h
  have hfacts := normalize_out_facts comps out h
  refine ⟨fun p hp => ?_, fun p hp => ?_, fun c hc t ht hlen => ?_⟩
  · exact Nat.le_of_not_lt (hfacts p hp).2.2
  · exact (hfacts p hp).1
  · intro hmem
    rw [List.mem_map] at hmem
    obtain ⟨p, hp, hp1⟩ := hmem
    rw [← hp1] at hlen
    exact (hfacts p hp).2.2 hlen

/-- C7 witness: normalizing the list holding a 60-character candidate of
weight 5 succeeds with the short surviving component's text within the
length bound. -/
theorem long_components_dropped_witness :
    (("a".toList, (1 : ℚ)) : List Char × ℚ).1.length ≤ 50 :=
  (long_components_dropped exLongMix [("a".toList, 1)] rfl).1 _
    (List.mem_cons_self _ _)

/-- C8 counterexample: `generate_music_file` catches every exception of its
body and returns `None`; two distinct upstream errors are both converted to
the same detail-free non-error return value instead of being surfaced. -/
theorem generator_error_swallowed :
    generate_music_file (.error (.valueError "No predictions returned from model.")) =
      none ∧
    generate_music_file (.error (.valueError "upstream unreachable")) = none ∧
    (PyErr.valueError "No predictions returned from model." ≠
      PyErr.valueError "upstream unreachable") := ⟨rfl, rfl, by decide⟩

/-- C8 amended: on any generation failure the generator returns `None` to its
immediate caller, discarding the error detail; the API layer converts that
`None` into an HTTP 500 failure response with a generic message, so the
failure is surfaced as an error response but not with the underlying
detail. Successful paths pass through unchanged. -/
theorem generator_failure_surfaced_as_500 (e : PyErr) (s : String) :
    generate_music_file (.error e) = none ∧
    generate_audio_result (.error e) = .error ⟨500, "Error en Lyria Generator"⟩ ∧
    generate_music_file (.ok s) = some s ∧
    generate_audio_result (.ok s) = .ok s :=
  ⟨rfl, rfl, rfl, rfl⟩

/-- C9: normalization is idempotent — feeding a successful output back
through the normalization step returns exactly the same list (exact
equality in this rational model, hence within any tolerance). -/
theorem normalize_idempotent (comps : List RawComp)
    (out : List (List Char × ℚ)) (h : analyze_components comps = .ok out) :
    analyze_components (out.map toRaw) = .ok out := by
  rw [analyze_components, mapError_ok_iff] at h ⊢
  have hsum := normalize_sum_one comps out h
  have hfacts := normalize_out_facts comps out h
  have hf : filterComps (out.map toRaw) = .ok out :=
    filterComps_map_toRaw out fun p hp => ⟨(hfacts p hp).2.1, (hfacts p hp).2.2⟩
  have hne : out ≠ [] := by
    obtain ⟨valid, hvne, _, hcase⟩ := normalize_ok_elim comps out h
    rcases hcase with ⟨_, hout⟩ | ⟨_, hout⟩ <;> subst hout <;> simpa using hvne
  rcases hout : out with _ | ⟨v, vs⟩
  · exact absurd hout hne
  · rw [hout] at hf hsum
    have hpos : 0 < ((v :: vs).map Prod.snd).sum := by
      rw [hsum]
      norm_num
    rw [List.map_cons]
    simp only [normalize_components]
    rw [List.map_cons] at hf
    rw [hf]
    dsimp only
    rw [if_pos hpos, hsum]
    simp [Prod.mk.eta, List.map_id, div_one]

/-- C9 witness: re-normalizing the rescale example's output returns it
unchanged. -/
theorem normalize_idempotent_witness :
    analyze_components ([("pop".toList, (1 : ℚ) / 2), ("piano".toList, 1 / 4),
        ("drums".toList, 1 / 4)].map toRaw) =
      .ok [("pop".toList, (1 : ℚ) / 2), ("piano".toList, 1 / 4),
        ("drums".toList, 1 / 4)] :=
  normalize_idempotent exRescale _ rfl

/-- C10: the rescale branch runs only for a strictly positive surviving
weight sum; any sum that is zero OR negative takes the uniform 1/N
fallback. -/
theorem nonpositive_sum_uniform_fallback (comps : List RawComp)
    (valid : List (List Char × ℚ)) (hne : comps ≠ []) (hvne : valid ≠ [])
    (hf : filterComps comps = .ok valid) :
    ((valid.map Prod.snd).sum ≤ 0 →
      analyze_components comps =
        .ok (valid.map fun p => (p.1, 1 / (valid.length : ℚ)))) ∧
    (0 < (valid.map Prod.snd).sum →
      analyze_components comps =
        .ok (valid.map fun p => (p.1, p.2 / (valid.map Prod.snd).sum))) := by
  cases comps with
  | nil => exact absurd rfl hne
  | cons c cs =>
    cases valid with
    | nil => exact absurd rfl hvne
    | cons v vs =>
      constructor
      · intro hS
        have hnlt : ¬ 0 < ((v :: vs).map Prod.snd).sum := not_lt.mpr hS
        rw [analyze_components]
        simp only [normalize_components, hf]
        rw [if_neg hnlt]
        rfl
      · intro hS
        rw [analyze_components]
        simp only [normalize_components, hf]
        rw [if_pos hS]
        rfl

/-- C10 witness: candidates with weights -1 and -2 (sum -3 < 0) take the
uniform fallback and both components receive weight 1/2. -/
theorem nonpositive_sum_uniform_fallback_witness :
    analyze_components exNegSum =
      .ok [("a".toList, (1 : ℚ) / 2), ("b".toList, 1 / 2)] :=
  (nonpositive_sum_uniform_fallback exNegSum
      [("a".toList, -1), ("b".toList, -2)] (by decide) (by decide) rfl).1
    (by decide)

end Lyria
